import Mathlib

/-!
Verification of the greenlight request-processing pipeline against its Go
sources: the optimistic-concurrency movie update protocol
(`MovieModel.Update` / `MovieModel.Delete`), the bearer-token authenticator
(`application.authenticate`, `generateToken`, `TokenModel.Insert`), the
permission gate (`requirePermission` and its wrappers) and the per-client
rate limiter (`application.rateLimit`, in both the current
`cmd/api/middleware.go` form and the older variant).

Go strings are embedded at the byte level as `List Nat` (Go `len` and
`strings.Split` operate on bytes), machine integers as `Int` (no overflow is
reachable in the verified properties), times as `Int` (token expiry) or `ℚ`
(rate-limiter clock), and the SQL tables as Lean lists of rows.  SHA-256 is
an external primitive of the Go standard library and enters as an explicit
function parameter `H`.
-/

namespace Greenlight

/-- Errors of the data layer, mirroring `ErrRecordNotFound` and
`ErrEditConflict` in `internal/data` (models file). -/
inductive ModelError where
  | recordNotFound
  | editConflict
deriving DecidableEq, Repr

/-! ## Movies: the optimistic update controller -/

/-- Mirrors the `Movie` struct of the movies model (appended to
`src/cmd/api/errors.go`): `ID int64`, `CreatedAt time.Time`, `Title`,
`Year int32`, `Runtime`, `Genres`, `Version int32`. -/
structure Movie where
  ID : Int
  CreatedAt : Int
  Title : List Nat
  Year : Int
  Runtime : Int
  Genres : List (List Nat)
  Version : Int
deriving DecidableEq, Repr

/-- The `WHERE id = $5 AND version = $6` condition of the conditional
`UPDATE` statement in `MovieModel.Update`. -/
def movieMatches (movie : Movie) (r : Movie) : Bool :=
  r.ID == movie.ID && r.Version == movie.Version

/-- The `SET title = $1, year = $2, runtime = $3, genres = $4,
version = version + 1` clause of `MovieModel.Update`, applied to one row. -/
def applyMovieUpdate (movie : Movie) (r : Movie) : Movie :=
  { r with Title := movie.Title, Year := movie.Year, Runtime := movie.Runtime,
           Genres := movie.Genres, Version := r.Version + 1 }

/-- Mirrors `MovieModel.Update`: one conditional write
(`UPDATE ... WHERE id = $5 AND version = $6 RETURNING version`).  Zero
matching rows surface as `sql.ErrNoRows` from the `RETURNING` scan and are
mapped to `ErrEditConflict`; on success the caller's record receives the new
version.  The third component counts storage round trips (the code issues
exactly one `QueryRowContext`, with no retry). -/
def MovieModel.Update (db : List Movie) (movie : Movie) :
    List Movie × Except ModelError Movie × Nat :=
  match db.filter (movieMatches movie) with
  | [] => (db, .error .editConflict, 1)
  | r :: _ =>
    (db.map (fun s => if movieMatches movie s then applyMovieUpdate movie s else s),
     .ok { movie with Version := r.Version + 1 }, 1)

/-- Mirrors `MovieModel.Insert` (`INSERT INTO movies ... RETURNING id,
created_at, version`).  Modelled from the spec: the movies table schema is
not under the sources; per the spec, versioned entity tables carry a
`version` column defaulting to 1, and `id` / `created_at` are
database-assigned, which enter here as the `newID` / `createdAt`
parameters. -/
def MovieModel.Insert (db : List Movie) (newID : Int) (createdAt : Int)
    (movie : Movie) : List Movie × Movie :=
  let row : Movie :=
    { ID := newID, CreatedAt := createdAt, Title := movie.Title,
      Year := movie.Year, Runtime := movie.Runtime, Genres := movie.Genres,
      Version := 1 }
  (db ++ [row], { movie with ID := newID, CreatedAt := createdAt, Version := 1 })

/-- Mirrors `MovieModel.Delete`: ids below 1 are rejected before any query;
otherwise one `DELETE ... WHERE id = $1` runs and zero affected rows map to
`ErrRecordNotFound`.  The third component counts storage round trips. -/
def MovieModel.Delete (db : List Movie) (id : Int) :
    List Movie × Except ModelError Unit × Nat :=
  if id < 1 then (db, .error .recordNotFound, 0)
  else
    let remaining := db.filter (fun r => !(r.ID == id))
    let rowsAffected := (db.filter (fun r => r.ID == id)).length
    if rowsAffected = 0 then (remaining, .error .recordNotFound, 1)
    else (remaining, .ok (), 1)

/-- The movies table's primary-key invariant: ids are pairwise distinct. -/
def idsUnique (db : List Movie) : Prop :=
  db.Pairwise (fun a b => a.ID ≠ b.ID)

lemma movieMatches_iff {movie r : Movie} :
    movieMatches movie r = true ↔ (r.ID = movie.ID ∧ r.Version = movie.Version) := by
  simp [movieMatches]

lemma update_no_match (db : List Movie) (movie : Movie)
    (h : ∀ r ∈ db, ¬(r.ID = movie.ID ∧ r.Version = movie.Version)) :
    MovieModel.Update db movie = (db, .error .editConflict, 1) := by
  have hf : db.filter (movieMatches movie) = [] := by
    rw [List.filter_eq_nil_iff]
    intro r hr
    rw [movieMatches_iff]
    exact h r hr
  unfold MovieModel.Update
  rw [hf]

lemma update_hit (db : List Movie) (movie r0 : Movie) (hr : r0 ∈ db)
    (hid : r0.ID = movie.ID) (hv : r0.Version = movie.Version) :
    ∃ m', MovieModel.Update db movie =
        (db.map (fun s => if movieMatches movie s then applyMovieUpdate movie s else s),
         .ok m', 1) ∧ m'.Version = movie.Version + 1 := by
  have hmem : r0 ∈ db.filter (movieMatches movie) := by
    rw [List.mem_filter]
    exact ⟨hr, movieMatches_iff.mpr ⟨hid, hv⟩⟩
  unfold MovieModel.Update
  cases hf : db.filter (movieMatches movie) with
  | nil => rw [hf] at hmem; cases hmem
  | cons r rs =>
    refine ⟨_, rfl, ?_⟩
    have : r ∈ db.filter (movieMatches movie) := by rw [hf]; exact List.mem_cons_self r rs
    have hm := (List.mem_filter.mp this).2
    rw [movieMatches_iff] at hm
    simp [hm.2]

lemma update_success (db : List Movie) (movie : Movie) (db' : List Movie)
    (m' : Movie) (ops : Nat) (huniq : idsUnique db)
    (h : MovieModel.Update db movie = (db', .ok m', ops)) :
    (∃ r ∈ db, r.ID = movie.ID ∧ r.Version = movie.Version) ∧
    (∀ s ∈ db, s.ID = movie.ID → s.Version = movie.Version) ∧
    m'.Version = movie.Version + 1 ∧
    (∀ s ∈ db', s.ID = movie.ID → s.Version = movie.Version + 1) ∧ ops = 1 := by
  unfold MovieModel.Update at h
  cases hf : db.filter (movieMatches movie) with
  | nil => rw [hf] at h; simp at h
  | cons r rs =>
    rw [hf] at h
    obtain ⟨hdb', hrest⟩ := Prod.mk.injEq .. |>.mp h
    obtain ⟨hm', hops⟩ := Prod.mk.injEq .. |>.mp hrest
    have hrmem : r ∈ db.filter (movieMatches movie) := by
      rw [hf]; exact List.mem_cons_self r rs
    have hrdb := (List.mem_filter.mp hrmem).1
    have hrmatch := movieMatches_iff.mp (List.mem_filter.mp hrmem).2
    have hall : ∀ s ∈ db, s.ID = movie.ID → s.Version = movie.Version := by
      intro s hs hsid
      by_cases hsr : s = r
      · rw [hsr]; exact hrmatch.2
      · exfalso
        have hsym : Symmetric (fun a b : Movie => a.ID ≠ b.ID) :=
          fun _ _ hab => fun hba => hab hba.symm
        exact List.Pairwise.forall hsym huniq hs hrdb hsr (hsid.trans hrmatch.1.symm)
    refine ⟨⟨r, hrdb, hrmatch.1, hrmatch.2⟩, hall, ?_, ?_, hops.symm⟩
    · rw [← Except.ok.inj hm']; simp [hrmatch.2]
    · intro s hs hsid
      rw [← hdb'] at hs
      obtain ⟨t, htdb, hts⟩ := List.mem_map.mp hs
      by_cases hmt : movieMatches movie t = true
      · rw [← hts]
        simp only [hmt, if_true]
        have := (movieMatches_iff.mp hmt).2
        simp [applyMovieUpdate, this]
      · exfalso
        rw [← hts] at hsid
        simp only [hmt] at hsid
        rw [if_neg (by simp [hmt])] at hsid
        exact hmt (movieMatches_iff.mpr ⟨hsid, hall t htdb hsid⟩)

/-- Claim C1: a freshly inserted movie row carries version 1 (and the
caller's record is returned with version 1); `MovieModel.Update` succeeds
only when the version carried by the caller equals the version currently
stored for that id, and on success both the stored version and the version
returned in the caller's record are exactly the observed version plus 1. -/
theorem movie_version_protocol (db : List Movie) (movie m0 : Movie)
    (newID createdAt : Int) (huniq : idsUnique db) :
    ((MovieModel.Insert db newID createdAt m0).2.Version = 1 ∧
      ∃ row, (MovieModel.Insert db newID createdAt m0).1 = db ++ [row] ∧
        row.Version = 1) ∧
    (∀ db' m' ops, MovieModel.Update db movie = (db', .ok m', ops) →
      (∃ r ∈ db, r.ID = movie.ID ∧ r.Version = movie.Version) ∧
      (∀ s ∈ db, s.ID = movie.ID → s.Version = movie.Version) ∧
      m'.Version = movie.Version + 1 ∧
      (∀ s ∈ db', s.ID = movie.ID → s.Version = movie.Version + 1)) := by
  refine ⟨⟨rfl, ⟨_, rfl, rfl⟩⟩, ?_⟩
  intro db' m' ops h
  obtain ⟨h1, h2, h3, h4, _⟩ := update_success db movie db' m' ops huniq h
  exact ⟨h1, h2, h3, h4⟩

/-- Witness for C1 at a concrete table: a one-row table at version 1,
updated with observed version 1, yields stored and returned version 2. -/
theorem movie_version_protocol_witness :
    (⟨7, 0, [65], 2021, 101, [], 2⟩ : Movie).Version = 2 := by
  have hu : MovieModel.Update [⟨7, 0, [], 2020, 100, [], 1⟩]
      ⟨7, 0, [65], 2021, 101, [], 1⟩
      = ([⟨7, 0, [65], 2021, 101, [], 2⟩], .ok ⟨7, 0, [65], 2021, 101, [], 2⟩, 1) := by
    rfl
  exact ((movie_version_protocol [⟨7, 0, [], 2020, 100, [], 1⟩]
    ⟨7, 0, [65], 2021, 101, [], 1⟩ ⟨7, 0, [], 2020, 100, [], 1⟩ 1 0
    (by simp [idsUnique])).2 _ _ _ hu).2.2.1

/-- Claim C2: two updates that both observed version 5 of the same record,
interleaved in either serialization of their atomic conditional writes
(the `UPDATE ... WHERE id AND version` statement is a single atomic
compare-and-swap, so any concurrent execution is equivalent to one of the
two orders, which the quantification over `m1, m2` covers): the first
succeeds and observes version 6, the second fails with `editConflict`, and
the stored version afterwards is 6, never 7. -/
theorem concurrent_update_single_winner (db : List Movie) (i : Int)
    (r0 m1 m2 : Movie) (huniq : idsUnique db)
    (hr : r0 ∈ db) (hrid : r0.ID = i) (hrv : r0.Version = 5)
    (h1i : m1.ID = i) (h1v : m1.Version = 5)
    (h2i : m2.ID = i) (h2v : m2.Version = 5) :
    ∃ db1 m1', MovieModel.Update db m1 = (db1, .ok m1', 1) ∧
      m1'.Version = 6 ∧
      MovieModel.Update db1 m2 = (db1, .error .editConflict, 1) ∧
      (∀ s ∈ db1, s.ID = i → s.Version = 6) := by
  obtain ⟨m1', hu1, hv1⟩ := update_hit db m1 r0 hr (hrid.trans h1i.symm)
    (hrv.trans h1v.symm)
  obtain ⟨_, _, _, hstored, _⟩ := update_success db m1 _ m1' 1 huniq hu1
  have hstored6 : ∀ s ∈ (db.map (fun s =>
      if movieMatches m1 s then applyMovieUpdate m1 s else s)), s.ID = i → s.Version = 6 := by
    intro s hs hsid
    have := hstored s hs (hsid.trans h1i.symm)
    rw [this, h1v]; decide
  refine ⟨_, m1', hu1, by rw [hv1, h1v]; decide, ?_, hstored6⟩
  apply update_no_match
  intro s hs hcond
  have := hstored6 s hs (hcond.1.trans h2i)
  rw [hcond.2, h2v] at this
  exact absurd this (by decide)

/-- Witness for C2 at a concrete table: one record with id 9 at version 5
and two writers that both observed version 5. -/
theorem concurrent_update_single_winner_witness :
    ∃ db1 m1', MovieModel.Update [⟨9, 0, [], 2020, 100, [], 5⟩] ⟨9, 0, [65], 2021, 101, [], 5⟩
        = (db1, .ok m1', 1) ∧ m1'.Version = 6 ∧
      MovieModel.Update db1 ⟨9, 0, [66], 2022, 102, [], 5⟩
        = (db1, .error .editConflict, 1) ∧
      (∀ s ∈ db1, s.ID = 9 → s.Version = 6) :=
  concurrent_update_single_winner [⟨9, 0, [], 2020, 100, [], 5⟩] 9
    ⟨9, 0, [], 2020, 100, [], 5⟩ ⟨9, 0, [65], 2021, 101, [], 5⟩
    ⟨9, 0, [66], 2022, 102, [], 5⟩ (by simp [idsUnique])
    (by simp) rfl rfl rfl rfl rfl rfl

/-- Claim C3: whenever no stored row carries the caller's id together with
the caller's observed version — because another writer advanced the
version, or because the record no longer exists — `MovieModel.Update`
returns `editConflict` (the same error in both cases, for every supplied
version), issues exactly one storage operation (no retry), and leaves the
table unchanged. -/
theorem update_zero_rows_conflict (db : List Movie) (movie : Movie)
    (h : ∀ r ∈ db, ¬(r.ID = movie.ID ∧ r.Version = movie.Version)) :
    MovieModel.Update db movie = (db, .error .editConflict, 1) :=
  update_no_match db movie h

/-- Witness for C3: both zero-match causes at concrete inputs — a table
where the record's version has advanced, and a table without the record. -/
theorem update_zero_rows_conflict_witness :
    MovieModel.Update [⟨3, 0, [], 2020, 100, [], 6⟩] ⟨3, 0, [65], 2021, 101, [], 5⟩
      = ([⟨3, 0, [], 2020, 100, [], 6⟩], .error .editConflict, 1) ∧
    MovieModel.Update [] ⟨4, 0, [65], 2021, 101, [], 5⟩
      = ([], .error .editConflict, 1) :=
  ⟨update_zero_rows_conflict _ _ (by intro r hr; simp at hr; simp [hr]),
   update_zero_rows_conflict _ _ (by intro r hr; simp at hr)⟩

/-- Claim C10: `MovieModel.Delete` rejects every id below 1 with
`recordNotFound` before issuing any storage operation; for ids at least 1
it issues exactly one delete and fails with `recordNotFound` exactly when
zero rows were affected, succeeding otherwise. -/
theorem delete_spec (db : List Movie) (id : Int) :
    (id < 1 → MovieModel.Delete db id = (db, .error .recordNotFound, 0)) ∧
    (1 ≤ id →
      ((MovieModel.Delete db id).2.1 = .error .recordNotFound ↔ ∀ r ∈ db, r.ID ≠ id) ∧
      (MovieModel.Delete db id).2.2 = 1 ∧
      ((∃ r ∈ db, r.ID = id) → (MovieModel.Delete db id).2.1 = .ok ())) := by
  constructor
  · intro hlt
    unfold MovieModel.Delete
    rw [if_pos hlt]
  · intro hge
    have hnlt : ¬(id < 1) := by omega
    unfold MovieModel.Delete
    rw [if_neg hnlt]
    by_cases hz : (db.filter (fun r => r.ID == id)).length = 0
    · rw [if_pos hz]
      rw [List.length_eq_zero, List.filter_eq_nil_iff] at hz
      simp only [beq_iff_eq] at hz
      constructor
      · simp only [true_iff]
        intro r hr
        exact hz r hr
      · refine ⟨rfl, ?_⟩
        rintro ⟨r, hr, hrid⟩
        exact absurd hrid (hz r hr)
    · rw [if_neg hz]
      rw [List.length_eq_zero, List.filter_eq_nil_iff] at hz
      push_neg at hz
      obtain ⟨r, hr, hrid⟩ := hz
      simp only [beq_iff_eq, Decidable.not_not] at hrid
      constructor
      · constructor
        · intro hcontra; cases hcontra
        · intro hall
          exact absurd hrid (hall r hr)
      · exact ⟨rfl, fun _ => rfl⟩

/-! ## Tokens: generation, persistence and the base-32 plaintext

`generateToken` (in the tokens file, `src/unnamed/part_001`) calls the Go
standard library's `base32.StdEncoding.WithPadding(base32.NoPadding)` over
16 random bytes and `sha256.Sum256` over the resulting plaintext.  The
base-32 encoder is embedded below bit-for-bit (RFC 4648 standard alphabet,
most-significant bit first, final group zero-padded, no padding
characters); SHA-256 enters as the explicit hash parameter `H`. -/

/-- Big-endian 5-bit group value of a bit list. -/
def bitsToNat (bits : List Bool) : Nat :=
  bits.foldl (fun acc b => 2 * acc + (if b then 1 else 0)) 0

/-- Zero-pad a final group to 5 bits (the encoder shifts remaining bits to
the top of the last character). -/
def padTo5 (l : List Bool) : List Bool :=
  l ++ List.replicate (5 - l.length) false

/-- Split a bit stream into consecutive 5-bit group values, zero-padding
the final group. -/
def chunk5 : List Bool → List Nat
  | [] => []
  | [b1] => [bitsToNat (padTo5 [b1])]
  | [b1, b2] => [bitsToNat (padTo5 [b1, b2])]
  | [b1, b2, b3] => [bitsToNat (padTo5 [b1, b2, b3])]
  | [b1, b2, b3, b4] => [bitsToNat (padTo5 [b1, b2, b3, b4])]
  | b1 :: b2 :: b3 :: b4 :: b5 :: rest =>
    bitsToNat [b1, b2, b3, b4, b5] :: chunk5 rest

/-- The 8 bits of a byte, most significant first. -/
def byteBits (b : Nat) : List Bool :=
  (List.range 8).map (fun i => b.testBit (7 - i))

/-- The bit stream of a byte string, most significant bit first. -/
def bytesToBits : List Nat → List Bool
  | [] => []
  | b :: bs => byteBits b ++ bytesToBits bs

/-- The RFC 4648 standard base-32 alphabet `ABCDEFGHIJKLMNOPQRSTUVWXYZ234567`
as bytes. -/
def base32AlphabetBytes : List Nat :=
  [65, 66, 67, 68, 69, 70, 71, 72, 73, 74, 75, 76, 77, 78, 79, 80, 81, 82,
   83, 84, 85, 86, 87, 88, 89, 90, 50, 51, 52, 53, 54, 55]

/-- Unpadded base-32 encoding of a byte string, as produced by Go's
`base32.StdEncoding.WithPadding(base32.NoPadding).EncodeToString`. -/
def base32EncodeNoPadding (bs : List Nat) : List Nat :=
  (chunk5 (bytesToBits bs)).map (fun v => base32AlphabetBytes.getD v 65)

lemma chunk5_length : ∀ l : List Bool, (chunk5 l).length = (l.length + 4) / 5
  | [] => rfl
  | [_] => by simp [chunk5]
  | [_, _] => by simp [chunk5]
  | [_, _, _] => by simp [chunk5]
  | [_, _, _, _] => by simp [chunk5]
  | b1 :: b2 :: b3 :: b4 :: b5 :: rest => by
    rw [chunk5]
    simp only [List.length_cons]
    rw [chunk5_length rest]
    omega

lemma bytesToBits_length : ∀ bs : List Nat, (bytesToBits bs).length = 8 * bs.length
  | [] => rfl
  | b :: bs => by
    simp [bytesToBits, byteBits, bytesToBits_length bs, List.length_cons]
    omega

lemma base32_length (bs : List Nat) :
    (base32EncodeNoPadding bs).length = (8 * bs.length + 4) / 5 := by
  rw [base32EncodeNoPadding, List.length_map,
    chunk5_length (bytesToBits bs), bytesToBits_length]

lemma base32_mem_alphabet (bs : List Nat) :
    ∀ x ∈ base32EncodeNoPadding bs, x ∈ base32AlphabetBytes := by
  intro x hx
  obtain ⟨v, _, hvx⟩ := List.mem_map.mp hx
  rw [← hvx]
  by_cases hv : v < base32AlphabetBytes.length
  · have hall : ∀ w < base32AlphabetBytes.length,
        base32AlphabetBytes.getD w 65 ∈ base32AlphabetBytes := by decide
    exact hall v hv
  · rw [List.getD_eq_default _ _ (by omega)]
    decide

lemma base32_no_space (bs : List Nat) :
    ∀ x ∈ base32EncodeNoPadding bs, x ≠ 32 := by
  intro x hx hx32
  subst hx32
  exact absurd (base32_mem_alphabet bs 32 hx) (by decide)

/-- Token scopes, from the tokens file: `ScopeActivation = "activation"`,
`ScopeAuthentication = "authentication"`. -/
def ScopeActivation : String := "activation"

/-- The authentication scope tag. -/
def ScopeAuthentication : String := "authentication"

/-- Mirrors the `Token` struct of the tokens file: plaintext (bytes),
hash, owning user id, expiry, scope. -/
structure Token where
  Plaintext : List Nat
  Hash : List Nat
  UserID : Int
  Expiry : Int
  Scope : String
deriving DecidableEq, Repr

/-- A row of the `tokens` table (`INSERT INTO tokens (hash, user_id,
expiry, scope)`): the plaintext has no column. -/
structure TokenRow where
  hash : List Nat
  userID : Int
  expiry : Int
  scope : String
deriving DecidableEq, Repr

/-- Mirrors `generateToken`: expiry is `now + ttl`, the plaintext is the
unpadded base-32 encoding of the 16 random bytes drawn from the CSPRNG
(which enter as the `randomBytes` parameter), and the hash is SHA-256 of
the plaintext (`H` standing for `sha256.Sum256`). -/
def generateToken (H : List Nat → List Nat) (now : Int) (randomBytes : List Nat)
    (userID : Int) (ttl : Int) (scope : String) : Token :=
  let plaintext := base32EncodeNoPadding randomBytes
  { Plaintext := plaintext, Hash := H plaintext, UserID := userID,
    Expiry := now + ttl, Scope := scope }

/-- Mirrors `TokenModel.Insert`: persists exactly
`{hash, user_id, expiry, scope}`. -/
def TokenModel.Insert (db : List TokenRow) (t : Token) : List TokenRow :=
  db ++ [{ hash := t.Hash, userID := t.UserID, expiry := t.Expiry, scope := t.Scope }]

/-- Mirrors `TokenModel.New`: generate then insert, returning the token
(with its plaintext) to the caller. -/
def TokenModel.New (H : List Nat → List Nat) (now : Int) (randomBytes : List Nat)
    (db : List TokenRow) (userID : Int) (ttl : Int) (scope : String) :
    List TokenRow × Token :=
  let t := generateToken H now randomBytes userID ttl scope
  (TokenModel.Insert db t, t)

/-- Claim C5: token issuance produces a plaintext that is the unpadded
base-32 encoding of the 16 random bytes and hence exactly 26 bytes long,
sets the hash to `H` (SHA-256) of that plaintext and the expiry to
`now + ttl`, and persists exactly `{hash, userID, expiry, scope}`: the
persisted row is unchanged under any replacement of the plaintext, since
no plaintext is stored. -/
theorem token_issue_spec (H : List Nat → List Nat) (db : List TokenRow)
    (now ttl userID : Int) (scope : String) (rb : List Nat)
    (hlen : rb.length = 16) :
    (generateToken H now rb userID ttl scope).Plaintext = base32EncodeNoPadding rb ∧
    (generateToken H now rb userID ttl scope).Plaintext.length = 26 ∧
    (generateToken H now rb userID ttl scope).Hash
      = H (base32EncodeNoPadding rb) ∧
    (generateToken H now rb userID ttl scope).Expiry = now + ttl ∧
    TokenModel.Insert db (generateToken H now rb userID ttl scope)
      = db ++ [{ hash := H (base32EncodeNoPadding rb), userID := userID,
                 expiry := now + ttl, scope := scope }] ∧
    (∀ t' : Token, t'.Hash = H (base32EncodeNoPadding rb) → t'.UserID = userID →
      t'.Expiry = now + ttl → t'.Scope = scope →
      TokenModel.Insert db t'
        = TokenModel.Insert db (generateToken H now rb userID ttl scope)) := by
  refine ⟨rfl, ?_, rfl, rfl, rfl, ?_⟩
  · rw [generateToken]
    simp only []
    rw [base32_length, hlen]
  · intro t' h1 h2 h3 h4
    rw [TokenModel.Insert, TokenModel.Insert, h1, h2, h3, h4]
    rfl

/-- Witness for C5 with 16 zero random bytes and the identity in place of
the hash. -/
theorem token_issue_spec_witness :
    (generateToken (fun l => l) 0 (List.replicate 16 0) 1 3600
      ScopeAuthentication).Plaintext.length = 26 :=
  (token_issue_spec (fun l => l) [] 0 3600 1 ScopeAuthentication
    (List.replicate 16 0) (by simp)).2.1

/-! ## The authenticate middleware

`application.authenticate` (in `src/cmd/api/middleware.go`) reads the
`Authorization` header, attaches the anonymous identity when it is absent,
splits it on spaces expecting exactly `Bearer <token>`, validates the token
with `ValidateTokenPlaintext` (non-empty and exactly 26 bytes), and
resolves the user with `UserModel.GetForToken`.  All three rejection
branches call the same `invalidAuthenticationTokenResponse` (a 401), so
they share one outcome constructor here; the `lookups` field counts
`GetForToken` calls and separates the format rejection (no storage lookup)
from the credential rejection (one lookup). -/

/-- Mirrors the `data.User` struct fields used by the pipeline. -/
structure User where
  ID : Int
  Name : String
  Email : String
  Activated : Bool
  Version : Int
deriving DecidableEq, Repr

/-- Go's `strings.Split` on a one-byte separator, over byte strings. -/
def splitByte (sep : Nat) : List Nat → List (List Nat)
  | [] => [[]]
  | b :: bs =>
    match splitByte sep bs with
    | [] => [[]]
    | h :: t => if b = sep then [] :: h :: t else (b :: h) :: t

/-- The bytes of `"Bearer"`. -/
def bearerBytes : List Nat := [66, 101, 97, 114, 101, 114]

/-- Outcome of the authenticate stage: proceed anonymously, proceed with a
resolved user, or reject with the single 401 response
`invalidAuthenticationTokenResponse` that all three rejection branches
share. -/
inductive AuthOutcome where
  | anonymous
  | authenticated (u : User)
  | invalidAuthenticationToken
deriving DecidableEq, Repr

/-- The authenticate stage's observable result: its outcome together with
the number of `GetForToken` storage lookups it performed. -/
structure AuthResult where
  outcome : AuthOutcome
  lookups : Nat
deriving DecidableEq, Repr

/-- Modelled from the spec: `UserModel.GetForToken` is not under the
sources (only its caller is).  Per the spec it computes the hash of the
presented secret and looks up a token row by that hash, requiring the
given scope and `expiry > now`, joined to its owning user; no matching
unexpired row yields `ErrRecordNotFound`. -/
def UserModel.GetForToken (H : List Nat → List Nat) (tokens : List TokenRow)
    (users : List User) (now : Int) (tokenScope : String)
    (tokenPlaintext : List Nat) : Except ModelError User :=
  match tokens.filterMap (fun r =>
      if r.hash = H tokenPlaintext ∧ r.scope = tokenScope ∧ now < r.expiry
      then users.find? (fun u => u.ID == r.userID) else none) with
  | [] => .error .recordNotFound
  | u :: _ => .ok u

/-- Mirrors `application.authenticate`: empty header attaches the anonymous
identity; a header that does not split into exactly `Bearer <token>`, or a
token failing `ValidateTokenPlaintext` (non-empty, 26 bytes), is rejected
before any lookup; otherwise `GetForToken` under `ScopeAuthentication`
decides between a resolved user and the 401. -/
def authenticate (H : List Nat → List Nat) (tokens : List TokenRow)
    (users : List User) (now : Int) (header : List Nat) : AuthResult :=
  if header = [] then ⟨.anonymous, 0⟩
  else if (splitByte 32 header).length ≠ 2 ∨
      (splitByte 32 header).getD 0 [] ≠ bearerBytes then
    ⟨.invalidAuthenticationToken, 0⟩
  else if (splitByte 32 header).getD 1 [] = [] ∨
      ((splitByte 32 header).getD 1 []).length ≠ 26 then
    ⟨.invalidAuthenticationToken, 0⟩
  else
    match UserModel.GetForToken H tokens users now ScopeAuthentication
        ((splitByte 32 header).getD 1 []) with
    | .error _ => ⟨.invalidAuthenticationToken, 1⟩
    | .ok u => ⟨.authenticated u, 1⟩

lemma splitByte_ne_nil (sep : Nat) : ∀ l, splitByte sep l ≠ []
  | [] => by simp [splitByte]
  | b :: bs => by
    rw [splitByte]
    cases h : splitByte sep bs with
    | nil => simp
    | cons hd tl => dsimp only; split <;> simp

lemma splitByte_no_sep (sep : Nat) : ∀ l, sep ∉ l → splitByte sep l = [l]
  | [], _ => rfl
  | b :: bs, h => by
    rw [splitByte, splitByte_no_sep sep bs (fun hm => h (List.mem_cons_of_mem b hm))]
    exact if_neg (by intro hb; subst hb; exact h (List.mem_cons_self b bs))

lemma splitByte_append_sep (sep : Nat) :
    ∀ l r, sep ∉ l → splitByte sep (l ++ sep :: r) = l :: splitByte sep r
  | [], r, _ => by
    rw [List.nil_append, splitByte]
    cases h : splitByte sep r with
    | nil => exact absurd h (splitByte_ne_nil sep r)
    | cons hd tl => simp
  | b :: bs, r, h => by
    rw [List.cons_append, splitByte,
      splitByte_append_sep sep bs r (fun hm => h (List.mem_cons_of_mem b hm))]
    exact if_neg (by intro hb; subst hb; exact h (List.mem_cons_self b bs))

lemma authenticate_nil (H : List Nat → List Nat) (tokens : List TokenRow)
    (users : List User) (now : Int) :
    authenticate H tokens users now [] = ⟨.anonymous, 0⟩ := rfl

lemma authenticate_malformed (H : List Nat → List Nat) (tokens : List TokenRow)
    (users : List User) (now : Int) (header : List Nat) (hne : header ≠ [])
    (hbad : (splitByte 32 header).length ≠ 2 ∨
      (splitByte 32 header).getD 0 [] ≠ bearerBytes) :
    authenticate H tokens users now header = ⟨.invalidAuthenticationToken, 0⟩ := by
  unfold authenticate
  rw [if_neg hne, if_pos hbad]

lemma authenticate_bad_token (H : List Nat → List Nat) (tokens : List TokenRow)
    (users : List User) (now : Int) (header p1 : List Nat) (hne : header ≠ [])
    (hsp : splitByte 32 header = [bearerBytes, p1])
    (hbad : p1 = [] ∨ p1.length ≠ 26) :
    authenticate H tokens users now header = ⟨.invalidAuthenticationToken, 0⟩ := by
  unfold authenticate
  rw [if_neg hne, hsp]
  rw [if_neg (by simp), if_pos (by simpa [List.getD] using hbad)]

lemma authenticate_wellformed (H : List Nat → List Nat) (tokens : List TokenRow)
    (users : List User) (now : Int) (header p1 : List Nat) (hne : header ≠ [])
    (hsp : splitByte 32 header = [bearerBytes, p1]) (hp1ne : p1 ≠ [])
    (hp1len : p1.length = 26) :
    authenticate H tokens users now header =
      match UserModel.GetForToken H tokens users now ScopeAuthentication p1 with
      | .error _ => ⟨.invalidAuthenticationToken, 1⟩
      | .ok u => ⟨.authenticated u, 1⟩ := by
  unfold authenticate
  rw [if_neg hne, hsp]
  rw [if_neg (by simp), if_neg (by simp [List.getD, hp1ne, hp1len])]
  simp [List.getD]

lemma getForToken_error_iff (H : List Nat → List Nat) (tokens : List TokenRow)
    (users : List User) (now : Int) (sc : String) (p : List Nat) :
    UserModel.GetForToken H tokens users now sc p = .error .recordNotFound ↔
      ¬ ∃ r ∈ tokens, r.hash = H p ∧ r.scope = sc ∧ now < r.expiry ∧
        ∃ u ∈ users, u.ID = r.userID := by
  unfold UserModel.GetForToken
  cases hfm : tokens.filterMap (fun r =>
      if r.hash = H p ∧ r.scope = sc ∧ now < r.expiry
      then users.find? (fun u => u.ID == r.userID) else none) with
  | nil =>
    refine ⟨fun _ => ?_, fun _ => rfl⟩
    rintro ⟨r, hr, h1, h2, h3, u, hu, hid⟩
    have hfr := List.filterMap_eq_nil_iff.mp hfm r hr
    rw [if_pos ⟨h1, h2, h3⟩, List.find?_eq_none] at hfr
    exact hfr u hu (by simp [hid])
  | cons u0 t0 =>
    constructor
    · intro hcontra; exact Except.noConfusion hcontra
    · intro hno
      exfalso
      apply hno
      have hmem : u0 ∈ tokens.filterMap (fun r =>
          if r.hash = H p ∧ r.scope = sc ∧ now < r.expiry
          then users.find? (fun u => u.ID == r.userID) else none) := by
        rw [hfm]; exact List.mem_cons_self u0 t0
      obtain ⟨r, hr, hfr⟩ := List.mem_filterMap.mp hmem
      by_cases hc : r.hash = H p ∧ r.scope = sc ∧ now < r.expiry
      · rw [if_pos hc] at hfr
        refine ⟨r, hr, hc.1, hc.2.1, hc.2.2, u0,
          List.mem_of_find?_eq_some hfr, ?_⟩
        have := List.find?_some hfr
        simpa using this
      · rw [if_neg hc] at hfr
        cases hfr

lemma getForToken_ok_mem (H : List Nat → List Nat) (tokens : List TokenRow)
    (users : List User) (now : Int) (sc : String) (p : List Nat) (u : User)
    (h : UserModel.GetForToken H tokens users now sc p = .ok u) : u ∈ users := by
  unfold UserModel.GetForToken at h
  cases hfm : tokens.filterMap (fun r =>
      if r.hash = H p ∧ r.scope = sc ∧ now < r.expiry
      then users.find? (fun v => v.ID == r.userID) else none) with
  | nil =>
    rw [hfm] at h
    exact Except.noConfusion h
  | cons u0 t0 =>
    rw [hfm] at h
    obtain rfl := (Except.ok.inj h).symm
    have hmem : u ∈ tokens.filterMap (fun r =>
        if r.hash = H p ∧ r.scope = sc ∧ now < r.expiry
        then users.find? (fun v => v.ID == r.userID) else none) := by
      rw [hfm]; exact List.mem_cons_self u t0
    obtain ⟨r, _, hfr⟩ := List.mem_filterMap.mp hmem
    by_cases hc : r.hash = H p ∧ r.scope = sc ∧ now < r.expiry
    · rw [if_pos hc] at hfr
      exact List.mem_of_find?_eq_some hfr
    · rw [if_neg hc] at hfr
      cases hfr

lemma getForToken_cases (H : List Nat → List Nat) (tokens : List TokenRow)
    (users : List User) (now : Int) (sc : String) (p : List Nat) :
    UserModel.GetForToken H tokens users now sc p = .error .recordNotFound ∨
      ∃ u, UserModel.GetForToken H tokens users now sc p = .ok u := by
  unfold UserModel.GetForToken
  cases tokens.filterMap (fun r =>
      if r.hash = H p ∧ r.scope = sc ∧ now < r.expiry
      then users.find? (fun u => u.ID == r.userID) else none) with
  | nil => exact Or.inl rfl
  | cons u t => exact Or.inr ⟨u, rfl⟩

lemma getForToken_ok_id (H : List Nat → List Nat) (tokens : List TokenRow)
    (users : List User) (now : Int) (sc : String) (p : List Nat) (u : User)
    (h : UserModel.GetForToken H tokens users now sc p = .ok u) :
    ∃ r ∈ tokens, (r.hash = H p ∧ r.scope = sc ∧ now < r.expiry) ∧
      u ∈ users ∧ u.ID = r.userID := by
  unfold UserModel.GetForToken at h
  cases hfm : tokens.filterMap (fun r =>
      if r.hash = H p ∧ r.scope = sc ∧ now < r.expiry
      then users.find? (fun v => v.ID == r.userID) else none) with
  | nil =>
    rw [hfm] at h
    exact Except.noConfusion h
  | cons u0 t0 =>
    rw [hfm] at h
    obtain rfl := (Except.ok.inj h).symm
    have hmem : u ∈ tokens.filterMap (fun r =>
        if r.hash = H p ∧ r.scope = sc ∧ now < r.expiry
        then users.find? (fun v => v.ID == r.userID) else none) := by
      rw [hfm]; exact List.mem_cons_self u t0
    obtain ⟨r, hr, hfr⟩ := List.mem_filterMap.mp hmem
    by_cases hc : r.hash = H p ∧ r.scope = sc ∧ now < r.expiry
    · rw [if_pos hc] at hfr
      refine ⟨r, hr, hc, List.mem_of_find?_eq_some hfr, ?_⟩
      have := List.find?_some hfr
      simpa using this
    · rw [if_neg hc] at hfr
      cases hfr

/-- Claim C4: the authenticate stage attaches the anonymous identity (a
non-error outcome, no lookup) when no Authorization header is present;
rejects with the 401 and zero storage lookups whenever the header does not
split into exactly `Bearer <secret>` with a non-empty 26-byte secret; and
otherwise performs exactly one lookup by the secret's hash restricted to
scope `"authentication"` and unexpired expiry, rejecting exactly when no
such row (joined to its owning user) exists and resolving the user
otherwise. -/
theorem authenticate_stage_spec (H : List Nat → List Nat)
    (tokens : List TokenRow) (users : List User) (now : Int) :
    (authenticate H tokens users now [] = ⟨.anonymous, 0⟩) ∧
    (∀ header, header ≠ [] →
      (∀ p1, splitByte 32 header = [bearerBytes, p1] → p1 = [] ∨ p1.length ≠ 26) →
      authenticate H tokens users now header = ⟨.invalidAuthenticationToken, 0⟩) ∧
    (∀ header p1, splitByte 32 header = [bearerBytes, p1] → p1 ≠ [] →
      p1.length = 26 →
      (authenticate H tokens users now header = ⟨.invalidAuthenticationToken, 1⟩ ↔
        ¬ ∃ r ∈ tokens, r.hash = H p1 ∧ r.scope = ScopeAuthentication ∧
          now < r.expiry ∧ ∃ u ∈ users, u.ID = r.userID) ∧
      ((∃ r ∈ tokens, r.hash = H p1 ∧ r.scope = ScopeAuthentication ∧
          now < r.expiry ∧ ∃ u ∈ users, u.ID = r.userID) →
        ∃ u ∈ users, authenticate H tokens users now header
          = ⟨.authenticated u, 1⟩)) := by
  refine ⟨rfl, ?_, ?_⟩
  · intro header hne hbad
    by_cases h2 : (splitByte 32 header).length = 2 ∧
        (splitByte 32 header).getD 0 [] = bearerBytes
    · have hsp : splitByte 32 header
          = [bearerBytes, (splitByte 32 header).getD 1 []] := by
        cases hs : splitByte 32 header with
        | nil => rw [hs] at h2; simp at h2
        | cons a t =>
          cases t with
          | nil => rw [hs] at h2; simp at h2
          | cons b t2 =>
            cases t2 with
            | nil =>
              rw [hs] at h2
              have hab : a = bearerBytes := by simpa [List.getD] using h2.2
              simp [hab, List.getD]
            | cons c t3 => rw [hs] at h2; simp at h2
      exact authenticate_bad_token H tokens users now header _ hne hsp
        (hbad _ hsp)
    · rw [Decidable.not_and_iff_or_not] at h2
      exact authenticate_malformed H tokens users now header hne h2
  · intro header p1 hsp hp1ne hp1len
    have hne : header ≠ [] := by
      intro hh
      subst hh
      rw [show splitByte 32 [] = [[]] from rfl] at hsp
      simp [bearerBytes] at hsp
    have hw := authenticate_wellformed H tokens users now header p1 hne hsp
      hp1ne hp1len
    rcases getForToken_cases H tokens users now ScopeAuthentication p1 with
      herr | ⟨u, hok⟩
    · refine ⟨⟨fun _ => (getForToken_error_iff H tokens users now
        ScopeAuthentication p1).mp herr, fun _ => by rw [hw, herr]⟩, ?_⟩
      intro hex
      exact absurd hex ((getForToken_error_iff H tokens users now
        ScopeAuthentication p1).mp herr)
    · constructor
      · constructor
        · intro hcontra
          rw [hw, hok] at hcontra
          exact absurd hcontra (by simp)
        · intro hno
          have := (getForToken_error_iff H tokens users now
            ScopeAuthentication p1).mpr hno
          rw [hok] at this
          exact Except.noConfusion this
      · intro _
        obtain ⟨_, _, _, humem, _⟩ := getForToken_ok_id H tokens users now
          ScopeAuthentication p1 u hok
        exact ⟨u, humem, by rw [hw, hok]⟩

/-- Witness for C4: the one-byte header `"B"` is rejected with the 401 and
zero storage lookups. -/
theorem authenticate_stage_spec_witness :
    authenticate (fun l => l) [] [] 0 [66] = ⟨.invalidAuthenticationToken, 0⟩ :=
  (authenticate_stage_spec (fun l => l) [] [] 0).2.1 [66] (by decide)
    (by
      intro p1 hp
      rw [show splitByte 32 [66] = [[66]] from rfl] at hp
      simp [bearerBytes] at hp)

/-- Claim C6: issuing a token (`TokenModel.New`) and immediately resolving
the returned plaintext through the authenticate stage under the
authentication scope yields the same user id, while presenting any
single-byte mutation of that plaintext fails with the invalid-credential
401 (`invalidAuthenticationTokenResponse`; the spec's
InvalidOrExpiredCredential class).  The hypotheses require an unexpired
ttl, a stored user with the issued id, and that the abstract hash `H`
(standing for SHA-256) maps the mutated plaintext neither to the issued
token's hash nor to any pre-existing row's hash. -/
theorem token_roundtrip (H : List Nat → List Nat) (db : List TokenRow)
    (users : List User) (now ttl userID : Int) (rb : List Nat)
    (hlen : rb.length = 16) (httl : 0 < ttl)
    (huser : ∃ u ∈ users, u.ID = userID)
    (hfresh : ∀ r ∈ db, r.hash ≠ H (base32EncodeNoPadding rb)) :
    (∃ u, authenticate H
        (TokenModel.New H now rb db userID ttl ScopeAuthentication).1 users now
        (bearerBytes ++ 32 ::
          (TokenModel.New H now rb db userID ttl ScopeAuthentication).2.Plaintext)
        = ⟨.authenticated u, 1⟩ ∧ u.ID = userID) ∧
    (∀ i b, i < 26 →
      b ≠ (TokenModel.New H now rb db userID ttl
        ScopeAuthentication).2.Plaintext.getD i 0 →
      (∀ r ∈ db, r.hash ≠ H ((base32EncodeNoPadding rb).set i b)) →
      H ((base32EncodeNoPadding rb).set i b) ≠ H (base32EncodeNoPadding rb) →
      (authenticate H
        (TokenModel.New H now rb db userID ttl ScopeAuthentication).1 users now
        (bearerBytes ++ 32 ::
          ((TokenModel.New H now rb db userID ttl
            ScopeAuthentication).2.Plaintext.set i b))).outcome
        = .invalidAuthenticationToken) := by
  have hnew1 : (TokenModel.New H now rb db userID ttl ScopeAuthentication).1
      = db ++ [⟨H (base32EncodeNoPadding rb), userID, now + ttl,
                ScopeAuthentication⟩] := rfl
  have hnew2 : (TokenModel.New H now rb db userID ttl
      ScopeAuthentication).2.Plaintext = base32EncodeNoPadding rb := rfl
  rw [hnew1, hnew2]
  set p := base32EncodeNoPadding rb with hpdef
  set row : TokenRow := ⟨H p, userID, now + ttl, ScopeAuthentication⟩ with hrowdef
  have hp26 : p.length = 26 := by
    rw [hpdef, base32_length rb, hlen]
  have hpne : p ≠ [] := by
    intro h; rw [h] at hp26; exact absurd hp26 (by decide)
  have hnosp : (32 : Nat) ∉ p := fun hm => base32_no_space rb 32 hm rfl
  constructor
  · have hne : (bearerBytes ++ 32 :: p) ≠ [] := by simp [bearerBytes]
    have hsp : splitByte 32 (bearerBytes ++ 32 :: p) = [bearerBytes, p] := by
      rw [splitByte_append_sep 32 bearerBytes _ (by decide),
        splitByte_no_sep 32 p hnosp]
    have hw := authenticate_wellformed H (db ++ [row]) users now _ p hne hsp
      hpne hp26
    have hex : ∃ r ∈ db ++ [row], r.hash = H p ∧ r.scope = ScopeAuthentication ∧
        now < r.expiry ∧ ∃ u ∈ users, u.ID = r.userID := by
      refine ⟨row, by simp, rfl, rfl, ?_, ?_⟩
      · show now < now + ttl
        omega
      · obtain ⟨u, hu, hid⟩ := huser
        exact ⟨u, hu, hid⟩
    rcases getForToken_cases H (db ++ [row]) users now ScopeAuthentication p with
      herr | ⟨u, hok⟩
    · exact absurd hex ((getForToken_error_iff H (db ++ [row]) users now
        ScopeAuthentication p).mp herr)
    · obtain ⟨r, hrmem, hcond, humem, hid⟩ := getForToken_ok_id H (db ++ [row])
        users now ScopeAuthentication p u hok
      have hrrow : r = row := by
        rcases List.mem_append.mp hrmem with hin | hin
        · exact absurd hcond.1 (hfresh r hin)
        · simpa using hin
      refine ⟨u, by rw [hw, hok], ?_⟩
      have : u.ID = row.userID := hrrow ▸ hid
      exact this
  · intro i b hi hb hfresh2 hHne
    have hp'len : (p.set i b).length = 26 := by rw [List.length_set]; exact hp26
    have hne' : (bearerBytes ++ 32 :: p.set i b) ≠ [] := by simp [bearerBytes]
    by_cases hb32 : b = 32
    · subst hb32
      have hilt : i < p.length := by omega
      have hset : p.set i 32 = p.take i ++ 32 :: p.drop (i + 1) :=
        List.set_eq_take_cons_drop 32 hilt
      have htake : (32 : Nat) ∉ p.take i :=
        fun hm => hnosp (List.mem_of_mem_take hm)
      have hdrop : (32 : Nat) ∉ p.drop (i + 1) :=
        fun hm => hnosp (List.mem_of_mem_drop hm)
      have hsp3 : splitByte 32 (bearerBytes ++ 32 :: p.set i 32)
          = [bearerBytes, p.take i, p.drop (i + 1)] := by
        rw [hset, splitByte_append_sep 32 bearerBytes _ (by decide),
          splitByte_append_sep 32 (p.take i) _ htake,
          splitByte_no_sep 32 _ hdrop]
      rw [authenticate_malformed H (db ++ [row]) users now _ hne'
        (Or.inl (by rw [hsp3]; simp))]
    · have hnosp' : (32 : Nat) ∉ p.set i b := by
        intro hm
        rcases List.mem_or_eq_of_mem_set hm with h | h
        · exact hnosp h
        · exact hb32 h.symm
      have hp'ne : p.set i b ≠ [] := by
        intro h; rw [h] at hp'len; exact absurd hp'len (by decide)
      have hsp' : splitByte 32 (bearerBytes ++ 32 :: p.set i b)
          = [bearerBytes, p.set i b] := by
        rw [splitByte_append_sep 32 bearerBytes _ (by decide),
          splitByte_no_sep 32 _ hnosp']
      have hw := authenticate_wellformed H (db ++ [row]) users now _ (p.set i b)
        hne' hsp' hp'ne hp'len
      have herr : UserModel.GetForToken H (db ++ [row]) users now
          ScopeAuthentication (p.set i b) = .error .recordNotFound := by
        rw [getForToken_error_iff]
        rintro ⟨r, hrmem, h1, _, _, _⟩
        rcases List.mem_append.mp hrmem with hin | hin
        · exact hfresh2 r hin h1
        · have hr : r = row := by simpa using hin
          rw [hr] at h1
          exact hHne h1.symm
      rw [hw, herr]

/-- Witness for C6: issue with the identity in place of the hash, 16 zero
random bytes and an empty token table, resolve with the returned
plaintext, and also check the mutation of byte 0 to the byte 1. -/
theorem token_roundtrip_witness :
    (∃ u, authenticate (fun l => l)
        (TokenModel.New (fun l => l) 0 (List.replicate 16 0) [] 1 3600
          ScopeAuthentication).1 [⟨1, "n", "e", true, 1⟩] 0
        (bearerBytes ++ 32 ::
          (TokenModel.New (fun l => l) 0 (List.replicate 16 0) [] 1 3600
            ScopeAuthentication).2.Plaintext)
        = ⟨.authenticated u, 1⟩ ∧ u.ID = 1) ∧
    (authenticate (fun l => l)
        (TokenModel.New (fun l => l) 0 (List.replicate 16 0) [] 1 3600
          ScopeAuthentication).1 [⟨1, "n", "e", true, 1⟩] 0
        (bearerBytes ++ 32 ::
          ((TokenModel.New (fun l => l) 0 (List.replicate 16 0) [] 1 3600
            ScopeAuthentication).2.Plaintext.set 0 1))).outcome
      = .invalidAuthenticationToken := by
  have h := token_roundtrip (fun l => l) [] [⟨1, "n", "e", true, 1⟩] 0 3600 1
    (List.replicate 16 0) (by simp) (by decide)
    ⟨⟨1, "n", "e", true, 1⟩, by simp, rfl⟩ (by simp)
  exact ⟨h.1, h.2 0 1 (by decide) (by decide) (by simp) (by decide)⟩

/-- Witness for C10: id 0 is rejected without a storage operation, and on
an empty table id 1 deletes zero rows and fails with `recordNotFound`. -/
theorem delete_spec_witness :
    MovieModel.Delete [⟨1, 0, [], 2020, 100, [], 1⟩] 0
      = ([⟨1, 0, [], 2020, 100, [], 1⟩], .error .recordNotFound, 0) ∧
    (MovieModel.Delete ([] : List Movie) 1).2.1 = .error .recordNotFound :=
  ⟨(delete_spec [⟨1, 0, [], 2020, 100, [], 1⟩] 0).1 (by decide),
   ((delete_spec ([] : List Movie) 1).2 (by decide)).1.mpr (by simp)⟩

/-! ## The permission gate

`requirePermission` wraps its handler in `requireActivatedUser`, which in
turn wraps its own check in `requireAuthenticatedUser`, so the checks run
in the fixed order non-anonymous, activated, capability membership.  The
identity read from the request context is either the distinguished
`AnonymousUser` (`&User{}`: zero id, not activated) or a resolved user. -/

/-- The request-context identity: `data.AnonymousUser` or a resolved
user. -/
inductive Identity where
  | anonymous
  | resolved (u : User)
deriving DecidableEq, Repr

/-- Mirrors `User.IsAnonymous` (pointer comparison against
`AnonymousUser`). -/
def Identity.isAnonymous : Identity → Bool
  | .anonymous => true
  | .resolved _ => false

/-- The `Activated` field as read through the context identity;
`AnonymousUser = &User{}` has `Activated == false`. -/
def Identity.activatedFlag : Identity → Bool
  | .anonymous => false
  | .resolved u => u.Activated

/-- The `ID` field as read through the context identity; `AnonymousUser`
has the zero id. -/
def Identity.idVal : Identity → Int
  | .anonymous => 0
  | .resolved u => u.ID

/-- Outcome of the gated handler chain: one of the three distinct error
responses, or the wrapped handler ran. -/
inductive GateOutcome where
  | authenticationRequired
  | inactiveAccount
  | notPermitted
  | handled
deriving DecidableEq, Repr

/-- A gate stage's observable result: its outcome and how many permission
sets were fetched from storage along the way. -/
structure GateResult where
  outcome : GateOutcome
  permFetches : Nat
deriving DecidableEq, Repr

/-- Modelled from the spec: `PermissionModel.GetAllForUser` is not under
the sources (only its caller is).  Per the spec, permissions are a mapping
from user id to a set of capability codes, queried fresh per request; the
table enters as an association list of (user id, code) pairs. -/
def Permissions.GetAllForUser (perms : List (Int × String)) (userID : Int) :
    List String :=
  (perms.filter (fun q => q.1 == userID)).map (fun q => q.2)

/-- Modelled from the spec: `Permissions.Include` is not under the sources;
per its caller it is membership of the required code in the fetched
capability set. -/
def Permissions.Include (codes : List String) (code : String) : Bool :=
  codes.contains code

/-- Mirrors `application.requireAuthenticatedUser`: reject an anonymous
identity with `authenticationRequiredResponse`, else run the wrapped
handler. -/
def requireAuthenticatedUser (next : Identity → GateResult)
    (user : Identity) : GateResult :=
  if user.isAnonymous then ⟨.authenticationRequired, 0⟩ else next user

/-- Mirrors `application.requireActivatedUser`: check `Activated`, and wrap
the whole check in `requireAuthenticatedUser`, which runs first. -/
def requireActivatedUser (next : Identity → GateResult) :
    Identity → GateResult :=
  requireAuthenticatedUser (fun user =>
    if !user.activatedFlag then ⟨.inactiveAccount, 0⟩ else next user)

/-- Mirrors `application.requirePermission`: fetch the capability set for
the context user's id, reject with `notPermittedResponse` when the required
code is absent, and wrap everything in `requireActivatedUser`. -/
def requirePermission (perms : List (Int × String)) (code : String)
    (next : Identity → GateResult) : Identity → GateResult :=
  requireActivatedUser (fun user =>
    let permissions := Permissions.GetAllForUser perms user.idVal
    if !(Permissions.Include permissions code) then ⟨.notPermitted, 1⟩
    else
      let r := next user
      ⟨r.outcome, r.permFetches + 1⟩)

/-- Claim C7: the permission gate's three checks run in the fixed
short-circuiting order non-anonymous, activated, membership: an anonymous
identity always yields `authenticationRequired` (never `notPermitted`)
with no permission fetch, whatever the required code; a non-activated
resolved user yields `inactiveAccount` before any permission set is
fetched; and only an activated, non-anonymous user reaches the membership
check, which fetches exactly one permission set and rejects with
`notPermitted` exactly when the code is absent. -/
theorem permission_gate_order (perms : List (Int × String)) (code : String)
    (next : Identity → GateResult) :
    (requirePermission perms code next .anonymous
      = ⟨.authenticationRequired, 0⟩) ∧
    (∀ u : User, u.Activated = false →
      requirePermission perms code next (.resolved u) = ⟨.inactiveAccount, 0⟩) ∧
    (∀ u : User, u.Activated = true →
      requirePermission perms code next (.resolved u) =
        (if !(Permissions.Include (Permissions.GetAllForUser perms u.ID) code)
         then ⟨.notPermitted, 1⟩
         else ⟨(next (.resolved u)).outcome,
               (next (.resolved u)).permFetches + 1⟩)) := by
  refine ⟨rfl, ?_, ?_⟩
  · intro u hu
    simp [requirePermission, requireActivatedUser, requireAuthenticatedUser,
      Identity.isAnonymous, Identity.activatedFlag, hu]
  · intro u hu
    simp [requirePermission, requireActivatedUser, requireAuthenticatedUser,
      Identity.isAnonymous, Identity.activatedFlag, Identity.idVal, hu]

/-- Witness for C7: an inactive user is rejected with `inactiveAccount`
and zero permission fetches, for a nonsensical required code. -/
theorem permission_gate_order_witness :
    requirePermission [(1, "movies:write")] "nonsense"
        (fun _ => ⟨.handled, 0⟩) (.resolved ⟨1, "n", "e", false, 1⟩)
      = ⟨.inactiveAccount, 0⟩ :=
  (permission_gate_order [(1, "movies:write")] "nonsense"
    (fun _ => ⟨.handled, 0⟩)).2.1 ⟨1, "n", "e", false, 1⟩ rfl

/-! ## The rate limiter

`application.rateLimit` keeps a mutex-guarded map from client address to a
`golang.org/x/time/rate.Limiter` plus a last-seen time.  The limiter
itself is an external dependency; it is modelled from the spec's contract
(a token bucket created with a full burst allowance, refilled
proportionally to elapsed time and capped at the burst size, consuming one
token per admitted request and nothing on denial), with the clock as `ℚ`.
Two middleware variants exist in the sources: the current one in
`cmd/api/middleware.go`, where `next.ServeHTTP` runs after the
`limiter.enabled` block, and the older one in `src/unnamed/part_002`,
where it runs inside that block. -/

/-- Modelled from the spec: the token-bucket state of
`golang.org/x/time/rate.Limiter` (refill rate, burst capacity, current
tokens, last refill time). -/
structure RateLimiter where
  limit : ℚ
  burst : ℕ
  tokens : ℚ
  last : ℚ
deriving DecidableEq

/-- Modelled from the spec: `rate.NewLimiter` creates a bucket with a full
burst allowance. -/
def RateLimiter.new (limit : ℚ) (burst : ℕ) (now : ℚ) : RateLimiter :=
  ⟨limit, burst, (burst : ℚ), now⟩

/-- Modelled from the spec: refill proportional to elapsed time since the
last refill, capped at the burst size. -/
def RateLimiter.refill (l : RateLimiter) (now : ℚ) : RateLimiter :=
  { l with tokens := min (l.tokens + l.limit * (now - l.last)) (l.burst : ℚ),
           last := now }

/-- Modelled from the spec: `Limiter.Allow` refills, then consumes one
token and admits when at least one is available, else denies without
consuming. -/
def RateLimiter.allow (l : RateLimiter) (now : ℚ) : Bool × RateLimiter :=
  let l2 := l.refill now
  if 1 ≤ l2.tokens then (true, { l2 with tokens := l2.tokens - 1 })
  else (false, l2)

/-- A value of the middleware's `clients` map: the per-client limiter and
its last-seen time. -/
structure ClientEntry where
  limiter : RateLimiter
  lastSeen : ℚ
deriving DecidableEq

/-- The middleware's `clients` map. -/
def ClientMap : Type := String → Option ClientEntry

/-- Outcome of one pass through the rateLimit middleware: the request was
forwarded to the next handler, rejected with the 429 response, dropped
without any response being initiated, or failed extracting the client
address (old variant only). -/
inductive LimitOutcome where
  | forwarded
  | rateLimited
  | dropped
  | addrError
deriving DecidableEq, Repr

/-- One middleware pass: its outcome and the clients map afterwards. -/
structure RateLimitStep where
  outcome : LimitOutcome
  clients : ClientMap

/-- Store an updated entry for one client key. -/
def updateClient (clients : ClientMap) (ip : String) (e : ClientEntry) :
    ClientMap :=
  fun k => if k = ip then some e else clients k

/-- The body shared by both middleware variants inside the
`limiter.enabled` block: create the entry on first sight with a fresh
full-burst limiter, stamp `lastSeen`, and call `Allow`. -/
def rateLimitAdmit (rps : ℚ) (burst : ℕ) (clients : ClientMap) (ip : String)
    (now : ℚ) : Bool × ClientMap :=
  let lim :=
    match clients ip with
    | none => RateLimiter.new rps burst now
    | some e => e.limiter
  let res := lim.allow now
  (res.1, updateClient clients ip ⟨res.2, now⟩)

/-- Mirrors `application.rateLimit` of `cmd/api/middleware.go`: when the
limiter is enabled, denial sends the 429 and admission falls through;
`next.ServeHTTP` runs after the enabled block, so a disabled limiter
forwards every request untouched. -/
def rateLimit (enabled : Bool) (rps : ℚ) (burst : ℕ) (clients : ClientMap)
    (ip : String) (now : ℚ) : RateLimitStep :=
  if enabled then
    let r := rateLimitAdmit rps burst clients ip now
    if !r.1 then ⟨.rateLimited, r.2⟩ else ⟨.forwarded, r.2⟩
  else ⟨.forwarded, clients⟩

/-- Mirrors `application.rateLimit` of `src/unnamed/part_002`: the client
address comes from `net.SplitHostPort` (an `Option` here, `none` being the
error branch), and `next.ServeHTTP` sits inside the `limiter.enabled`
block — with the limiter disabled the handler returns without forwarding
the request anywhere. -/
def rateLimitOld (enabled : Bool) (rps : ℚ) (burst : ℕ) (clients : ClientMap)
    (ipResult : Option String) (now : ℚ) : RateLimitStep :=
  if enabled then
    match ipResult with
    | none => ⟨.addrError, clients⟩
    | some ip =>
      let r := rateLimitAdmit rps burst clients ip now
      if !r.1 then ⟨.rateLimited, r.2⟩ else ⟨.forwarded, r.2⟩
  else ⟨.dropped, clients⟩

/-- A sequence of admission checks for one client key at the given times,
counting how many were forwarded. -/
def runChecks (rps : ℚ) (burst : ℕ) (ip : String) :
    ClientMap → List ℚ → Nat × ClientMap
  | clients, [] => (0, clients)
  | clients, t :: ts =>
    let step := rateLimit true rps burst clients ip t
    let rest := runChecks rps burst ip step.clients ts
    ((if step.outcome = .forwarded then 1 else 0) + rest.1, rest.2)

lemma refill_limit (l : RateLimiter) (now : ℚ) : (l.refill now).limit = l.limit := rfl

lemma refill_burst (l : RateLimiter) (now : ℚ) : (l.refill now).burst = l.burst := rfl

lemma refill_last (l : RateLimiter) (now : ℚ) : (l.refill now).last = now := rfl

lemma refill_tokens (l : RateLimiter) (now : ℚ) :
    (l.refill now).tokens = min (l.tokens + l.limit * (now - l.last)) (l.burst : ℚ) := rfl

lemma refill_new (rps : ℚ) (burst : ℕ) (now : ℚ) :
    (RateLimiter.new rps burst now).refill now = RateLimiter.new rps burst now := by
  unfold RateLimiter.new RateLimiter.refill
  simp

lemma updateClient_same (clients : ClientMap) (ip : String) (e : ClientEntry) :
    updateClient clients ip e ip = some e := by
  simp [updateClient]

lemma allow_denied (l : RateLimiter) (now : ℚ) (h : (l.allow now).1 = false) :
    (l.allow now).2 = l.refill now := by
  unfold RateLimiter.allow at h ⊢
  by_cases hc : 1 ≤ (l.refill now).tokens
  · simp [hc] at h
  · simp [hc]

lemma rateLimit_true_some (rps : ℚ) (burst : ℕ) (clients : ClientMap)
    (ip : String) (now : ℚ) (e : ClientEntry) (he : clients ip = some e) :
    rateLimit true rps burst clients ip now =
      if 1 ≤ (e.limiter.refill now).tokens then
        ⟨.forwarded, updateClient clients ip
          ⟨⟨e.limiter.limit, e.limiter.burst,
            (e.limiter.refill now).tokens - 1, now⟩, now⟩⟩
      else
        ⟨.rateLimited, updateClient clients ip
          ⟨⟨e.limiter.limit, e.limiter.burst,
            (e.limiter.refill now).tokens, now⟩, now⟩⟩ := by
  unfold rateLimit rateLimitAdmit RateLimiter.allow
  rw [he]
  by_cases hc : 1 ≤ (e.limiter.refill now).tokens
  · simp only [if_pos hc]
    rfl
  · simp only [if_neg hc]
    rfl

lemma rateLimit_true_none (rps : ℚ) (burst : ℕ) (clients : ClientMap)
    (ip : String) (now : ℚ) (he : clients ip = none) :
    rateLimit true rps burst clients ip now =
      if 1 ≤ (burst : ℚ) then
        ⟨.forwarded, updateClient clients ip
          ⟨⟨rps, burst, (burst : ℚ) - 1, now⟩, now⟩⟩
      else
        ⟨.rateLimited, updateClient clients ip
          ⟨⟨rps, burst, (burst : ℚ), now⟩, now⟩⟩ := by
  unfold rateLimit rateLimitAdmit RateLimiter.allow
  rw [he]
  dsimp only
  rw [refill_new rps burst now,
    show (RateLimiter.new rps burst now).tokens = (burst : ℚ) from rfl]
  by_cases hc : 1 ≤ (burst : ℚ)
  · simp only [if_pos hc]
    rfl
  · simp only [if_neg hc]
    rfl

lemma runChecks_invariant (rps : ℚ) (burst : ℕ) (ip : String) (hrps : 0 ≤ rps) :
    ∀ (ts : List ℚ) (clients : ClientMap) (e : ClientEntry),
      clients ip = some e →
      e.limiter.limit = rps →
      e.limiter.burst = burst →
      0 ≤ e.limiter.tokens →
      List.Chain (· ≤ ·) e.limiter.last ts →
      ∃ e', (runChecks rps burst ip clients ts).2 ip = some e' ∧
        0 ≤ e'.limiter.tokens ∧
        ((runChecks rps burst ip clients ts).1 : ℚ) + e'.limiter.tokens ≤
          e.limiter.tokens + rps * (ts.getLastD e.limiter.last - e.limiter.last)
  | [], clients, e, he, _, _, hpos, _ => by
    refine ⟨e, he, hpos, ?_⟩
    simp [runChecks, List.getLastD]
  | t :: ts, clients, e, he, hlim, hburst, hpos, hchain => by
    obtain ⟨hth, htc⟩ := List.chain_cons.mp hchain
    have hminle : (e.limiter.refill t).tokens ≤
        e.limiter.tokens + rps * (t - e.limiter.last) := by
      rw [refill_tokens, hlim]
      exact min_le_left _ _
    have hminpos : 0 ≤ (e.limiter.refill t).tokens := by
      rw [refill_tokens, hlim]
      refine le_min (by nlinarith) (by positivity)
    have hsum : rps * (t - e.limiter.last) + rps * (ts.getLastD t - t)
        = rps * (ts.getLastD t - e.limiter.last) := by ring
    have hstep := rateLimit_true_some rps burst clients ip t e he
    by_cases hadm : 1 ≤ (e.limiter.refill t).tokens
    · rw [if_pos hadm] at hstep
      have hc2 : (rateLimit true rps burst clients ip t).clients ip =
          some ⟨⟨e.limiter.limit, e.limiter.burst,
            (e.limiter.refill t).tokens - 1, t⟩, t⟩ := by
        rw [hstep]
        exact updateClient_same ..
      obtain ⟨e', h1, h2, h3⟩ := runChecks_invariant rps burst ip hrps ts
        (rateLimit true rps burst clients ip t).clients
        ⟨⟨e.limiter.limit, e.limiter.burst,
          (e.limiter.refill t).tokens - 1, t⟩, t⟩
        hc2 hlim hburst (by simp; linarith) htc
      have hcount : (if (rateLimit true rps burst clients ip t).outcome
          = LimitOutcome.forwarded then 1 else 0) = 1 := by
        rw [hstep]
        simp
      refine ⟨e', ?_, h2, ?_⟩
      · rw [runChecks]
        exact h1
      · simp only [runChecks, hcount, List.getLastD_cons]
        dsimp only at h3
        push_cast
        linarith [h3, hminle, hsum]
    · rw [if_neg hadm] at hstep
      have hc2 : (rateLimit true rps burst clients ip t).clients ip =
          some ⟨⟨e.limiter.limit, e.limiter.burst,
            (e.limiter.refill t).tokens, t⟩, t⟩ := by
        rw [hstep]
        exact updateClient_same ..
      obtain ⟨e', h1, h2, h3⟩ := runChecks_invariant rps burst ip hrps ts
        (rateLimit true rps burst clients ip t).clients
        ⟨⟨e.limiter.limit, e.limiter.burst,
          (e.limiter.refill t).tokens, t⟩, t⟩
        hc2 hlim hburst (by simpa using hminpos) htc
      have hcount : (if (rateLimit true rps burst clients ip t).outcome
          = LimitOutcome.forwarded then 1 else 0) = 0 := by
        rw [hstep]
        simp
      refine ⟨e', ?_, h2, ?_⟩
      · rw [runChecks]
        exact h1
      · simp only [runChecks, hcount, List.getLastD_cons]
        dsimp only at h3
        push_cast
        linarith [h3, hminle, hsum]

/-- Claim C8: for a sequence of admission checks against a single,
newly-seen client key at nondecreasing times that together accrue less
than one token of refill ("arriving faster than the refill rate allows"),
at most `burst` checks are admitted; the newly-seen key starts with a full
burst allowance (its first check is admitted exactly when `burst ≥ 1`,
leaving `burst - 1` tokens); and a denied check consumes no token (the
bucket after a denial is exactly the refilled bucket). -/
theorem rate_limiter_burst_bound (rps : ℚ) (burst : ℕ) (ip : String)
    (clients : ClientMap) (t0 : ℚ) (ts : List ℚ)
    (hrps : 0 ≤ rps) (hfresh : clients ip = none)
    (hchain : List.Chain (· ≤ ·) t0 ts)
    (hfast : rps * (ts.getLastD t0 - t0) < 1) :
    (runChecks rps burst ip clients (t0 :: ts)).1 ≤ burst ∧
    ((rateLimit true rps burst clients ip t0).outcome = .forwarded ↔
      1 ≤ (burst : ℚ)) ∧
    ((rateLimit true rps burst clients ip t0).clients ip =
      some ⟨⟨rps, burst,
        (burst : ℚ) - (if 1 ≤ (burst : ℚ) then 1 else 0), t0⟩, t0⟩) ∧
    (∀ (lim : RateLimiter) (now : ℚ), (lim.allow now).1 = false →
      (lim.allow now).2 = lim.refill now) := by
  have hstep := rateLimit_true_none rps burst clients ip t0 hfresh
  by_cases hb : 1 ≤ (burst : ℚ)
  · rw [if_pos hb] at hstep
    have hc2 : (rateLimit true rps burst clients ip t0).clients ip =
        some ⟨⟨rps, burst, (burst : ℚ) - 1, t0⟩, t0⟩ := by
      rw [hstep]; exact updateClient_same ..
    obtain ⟨e', h1, h2, h3⟩ := runChecks_invariant rps burst ip hrps ts
      (rateLimit true rps burst clients ip t0).clients
      ⟨⟨rps, burst, (burst : ℚ) - 1, t0⟩, t0⟩ hc2 rfl rfl
      (by show (0 : ℚ) ≤ (burst : ℚ) - 1; linarith) hchain
    have hcount : (if (rateLimit true rps burst clients ip t0).outcome
        = LimitOutcome.forwarded then 1 else 0) = 1 := by
      rw [hstep]; simp
    refine ⟨?_, ?_, ?_, fun lim now h => allow_denied lim now h⟩
    · have hrun : (runChecks rps burst ip clients (t0 :: ts)).1 =
          1 + (runChecks rps burst ip
            (rateLimit true rps burst clients ip t0).clients ts).1 := by
        simp only [runChecks, hcount]
      have hq : ((runChecks rps burst ip clients (t0 :: ts)).1 : ℚ) <
          (burst : ℚ) + 1 := by
        rw [hrun]
        dsimp only at h3
        push_cast
        linarith [h3, h2, hfast]
      have hnat : (runChecks rps burst ip clients (t0 :: ts)).1 < burst + 1 := by
        exact_mod_cast hq
      omega
    · rw [hstep]
      simp [hb]
    · rw [if_pos hb]
      exact hc2
  · rw [if_neg hb] at hstep
    have hc2 : (rateLimit true rps burst clients ip t0).clients ip =
        some ⟨⟨rps, burst, (burst : ℚ), t0⟩, t0⟩ := by
      rw [hstep]; exact updateClient_same ..
    obtain ⟨e', h1, h2, h3⟩ := runChecks_invariant rps burst ip hrps ts
      (rateLimit true rps burst clients ip t0).clients
      ⟨⟨rps, burst, (burst : ℚ), t0⟩, t0⟩ hc2 rfl rfl
      (by simp) hchain
    have hcount : (if (rateLimit true rps burst clients ip t0).outcome
        = LimitOutcome.forwarded then 1 else 0) = 0 := by
      rw [hstep]; simp
    refine ⟨?_, ?_, ?_, fun lim now h => allow_denied lim now h⟩
    · have hrun : (runChecks rps burst ip clients (t0 :: ts)).1 =
          0 + (runChecks rps burst ip
            (rateLimit true rps burst clients ip t0).clients ts).1 := by
        simp only [runChecks, hcount]
      have hq : ((runChecks rps burst ip clients (t0 :: ts)).1 : ℚ) <
          (burst : ℚ) + 1 := by
        rw [hrun]
        dsimp only at h3
        push_cast
        linarith [h3, h2, hfast]
      have hnat : (runChecks rps burst ip clients (t0 :: ts)).1 < burst + 1 := by
        exact_mod_cast hq
      omega
    · rw [hstep]
      simp [hb]
    · rw [if_neg hb, sub_zero]
      exact hc2

/-- Witness for C8: three same-instant checks with burst 2 at zero refill
rate admit at most 2. -/
theorem rate_limiter_burst_bound_witness :
    (runChecks 0 2 "k" (fun _ => none) [0, 0, 0]).1 ≤ 2 :=
  (rate_limiter_burst_bound 0 2 "k" (fun _ => none) 0 [0, 0] le_rfl rfl
    (List.chain_cons.mpr ⟨le_refl 0,
      List.chain_cons.mpr ⟨le_refl 0, List.Chain.nil⟩⟩)
    (by simp)).1

/-- Claim C9: with the limiter disabled, `rateLimit` of
`cmd/api/middleware.go` forwards every request unchanged to the next
handler with admission granted; the older variant in `src/unnamed/part_002`
instead returns without ever invoking the next handler (the request is
dropped), contradicting the claim for that variant — the failing input is
any request processed with `limiter.enabled = false`. -/
theorem rateLimit_disabled_passthrough :
    (∀ (rps : ℚ) (burst : ℕ) (clients : ClientMap) (ip : String) (now : ℚ),
      rateLimit false rps burst clients ip now = ⟨.forwarded, clients⟩) ∧
    (∀ (rps : ℚ) (burst : ℕ) (clients : ClientMap) (ipResult : Option String)
      (now : ℚ),
      rateLimitOld false rps burst clients ipResult now = ⟨.dropped, clients⟩) :=
  ⟨fun _ _ _ _ _ => rfl, fun _ _ _ _ _ => rfl⟩

end Greenlight
